import Mathlib

/-!
Verification of the Ktute keyboard-layout core.

This file gives a shallow embedding of the two parsers at the heart of the
Ktute repository and proves properties of them:

* `src/keyboard/layout-parser.js` — `parseKeyToken` and `parseCombinedLayout`,
  the combined layout-definition text parser;
* `src/keyboard/zmk-parser.js` (the revision whose behaviour the repository's
  own test-suite `zmk-parser.test.js` pins down) — `ZMK_TO_LABEL`,
  `zmkToLabel`, `parseBindings` and `parseZmkKeymap`, the ZMK keymap importer.

JavaScript strings are modelled as `List Char`, JS numbers used by the parsers
as `Rat` (all widths and columns are exact small decimals), `parseInt` results
as an explicit `JsInt` with a `nan` case, and JS `null` as `Option`.
Every definition follows the control flow of the corresponding source
function branch by branch.
-/

namespace Ktute

/-! ### Character and string primitives (ASCII fragment of the JS behaviour) -/

/-- JS whitespace test (`\s`), restricted to the ASCII characters that can
occur in the parsers' inputs. -/
def jsWs (c : Char) : Bool :=
  c = ' ' || c = '\t' || c = '\n' || c = '\r' || c = '\x0b' || c = '\x0c'

def isDigitC (c : Char) : Bool := '0' ≤ c && c ≤ '9'

/-- JS `\w` character class: `[A-Za-z0-9_]`. -/
def isWordC (c : Char) : Bool :=
  ('a' ≤ c && c ≤ 'z') || ('A' ≤ c && c ≤ 'Z') || isDigitC c || c = '_'

def isAlphaC (c : Char) : Bool :=
  ('a' ≤ c && c ≤ 'z') || ('A' ≤ c && c ≤ 'Z')

def toLowerC (c : Char) : Char :=
  if 'A' ≤ c && c ≤ 'Z' then Char.ofNat (c.toNat + 32) else c

def toUpperC (c : Char) : Char :=
  if 'a' ≤ c && c ≤ 'z' then Char.ofNat (c.toNat - 32) else c

def toLowerL (l : List Char) : List Char := l.map toLowerC

def toUpperL (l : List Char) : List Char := l.map toUpperC

/-- `String.prototype.trim` (ASCII whitespace). -/
def trimL (l : List Char) : List Char := l.dropWhile jsWs

def trimStr (l : List Char) : List Char := ((trimL l).reverse.dropWhile jsWs).reverse

/-- `String.prototype.split(sep)` for a single separator character: keeps
empty pieces, like JS. -/
def splitCh (sep : Char) (l : List Char) : List (List Char) :=
  l.foldr
    (fun c acc =>
      if c = sep then [] :: acc
      else
        match acc with
        | h :: t => (c :: h) :: t
        | [] => [[c]])
    [[]]

/-- Split at every character satisfying `p`, keeping empty pieces. -/
def splitP (p : Char → Bool) (l : List Char) : List (List Char) :=
  l.foldr
    (fun c acc =>
      if p c then [] :: acc
      else
        match acc with
        | h :: t => (c :: h) :: t
        | [] => [[c]])
    [[]]

/-- `str.split(/\s+/).filter(t => t !== '')`: the whitespace-delimited words. -/
def wordsL (l : List Char) : List (List Char) :=
  (splitP jsWs l).filter (fun w => !w.isEmpty)

/-- Result of JS `parseInt(·, 10)`: either `NaN` or an integer. -/
inductive JsInt where
  | nan : JsInt
  | val : Int → JsInt
deriving DecidableEq, Repr

def digitsToNat (ds : List Char) : Nat :=
  ds.foldl (fun n c => n * 10 + (c.toNat - '0'.toNat)) 0

/-- JS `parseInt(s, 10)`: skip leading whitespace, optional sign, then the
maximal digit prefix; `NaN` when that prefix is empty. -/
def parseIntJS (l : List Char) : JsInt :=
  let l := trimL l
  match l with
  | '-' :: rest =>
    let ds := rest.takeWhile isDigitC
    if ds.isEmpty then .nan else .val (-(digitsToNat ds : Int))
  | '+' :: rest =>
    let ds := rest.takeWhile isDigitC
    if ds.isEmpty then .nan else .val (digitsToNat ds)
  | _ =>
    let ds := l.takeWhile isDigitC
    if ds.isEmpty then .nan else .val (digitsToNat ds)

/-- JS `parseFloat`, for the decimal shapes the layout parser feeds it
(strings drawn from `[0-9.]`, per the guarding regexes — no exponents, no
signs reach it): maximal digit prefix, optional `.` plus more digits, the
rest ignored; `NaN` (`none`) when no digit was consumed. -/
def parseFloatJS (l : List Char) : Option Rat :=
  let l := trimL l
  let intDs := l.takeWhile isDigitC
  let rest := l.drop intDs.length
  let fracDs :=
    match rest with
    | '.' :: r => r.takeWhile isDigitC
    | _ => []
  if intDs.isEmpty && fracDs.isEmpty then none
  else
    some ((digitsToNat intDs : Rat) + (digitsToNat fracDs : Rat) / ((10 : Rat) ^ fracDs.length))

/-! ### Layout parser: `parseKeyToken` (layout-parser.js lines 17–73) -/

/-- Result record of `parseKeyToken`: `{ label, width, isPhysicalOnly }`,
with `label : Option String` for the JS `string | null`. -/
structure ParsedToken where
  label : Option String
  width : Rat
  isPhysicalOnly : Bool
deriving DecidableEq, Repr

/-- The width half of the `label:width` regex `^([^:]+):(\d+\.?\d*)$`:
one or more digits, an optional dot, zero or more digits. -/
def widthShape (w : List Char) : Bool :=
  let ds := w.takeWhile isDigitC
  !ds.isEmpty &&
    (match w.drop ds.length with
     | [] => true
     | '.' :: fs => fs.all isDigitC
     | _ => false)

/-- `token.match(/^([^:]+):(\d+\.?\d*)$/)`: a non-empty colon-free label, a
colon, then a decimal width. Since `[^:]+` cannot cross a colon, the split
point is the first colon of the token. -/
def colonMatchTok (t : List Char) : Option (List Char × List Char) :=
  let lab := t.takeWhile (fun c => c ≠ ':')
  if lab.length = t.length then none
  else
    let rest := t.drop (lab.length + 1)
    if !lab.isEmpty && widthShape rest then some (lab, rest) else none

/-- `!isNaN(parseFloat(token)) && token.match(/^[\d.]+$/)`. -/
def isNumericTok (t : List Char) : Bool :=
  !t.isEmpty && t.all (fun c => isDigitC c || c = '.') && (parseFloatJS t).isSome

/-- `parseKeyToken(token, isCombinedFormat)` from layout-parser.js:
`label:width` first; then the broken-bar gap `¦` (quarter width); then
purely numeric tokens (labels in combined format, widths — with `"0"` a gap —
in physical-only format); otherwise a label of width 1. -/
def parseKeyToken (token : List Char) (isCombinedFormat : Bool) : ParsedToken :=
  match colonMatchTok token with
  | some (lab, w) => ⟨some (String.mk lab), (parseFloatJS w).getD 0, false⟩
  | none =>
    if token = ['¦'] then ⟨none, (1 : Rat) / 4, true⟩
    else if isNumericTok token then
      if isCombinedFormat then ⟨some (String.mk token), 1, false⟩
      else if token = ['0'] then ⟨none, 0, true⟩
      else ⟨none, (parseFloatJS token).getD 0, true⟩
    else ⟨some (String.mk token), 1, false⟩

/-! ### Layout parser: `parseCombinedLayout` (layout-parser.js lines 80–264) -/

/-- One element of `physical.keys`. -/
structure KeySlot where
  row : JsInt
  col : Rat
  width : Rat
  hand : String
  isThumb : Bool
deriving DecidableEq, Repr

/-- The per-hand token loop of `parseCombinedLayout` (the `leftKeys.forEach` /
`rightKeys.forEach` bodies): classify each token, treat `label === null`
with `0 < width < 1` as a gap that only advances the cursor, emit physical
keys (and, in the combined branch, labels) otherwise. Returns the emitted
key slots, the emitted labels, and the final column cursor. -/
def processTokens (combined : Bool) (rowIdx : JsInt) (isThumb : Bool) (hand : String) :
    List (List Char) → Rat → List KeySlot × List String × Rat
  | [], pos => ([], [], pos)
  | t :: ts, pos =>
    let p := parseKeyToken t combined
    if p.label = none ∧ 0 < p.width ∧ p.width < 1 then
      processTokens combined rowIdx isThumb hand ts (pos + p.width)
    else if p.isPhysicalOnly then
      let r := processTokens combined rowIdx isThumb hand ts
        (pos + (if 0 < p.width then p.width else 1))
      if 0 < p.width then
        (⟨rowIdx, pos, p.width, hand, isThumb⟩ :: r.1, r.2.1, r.2.2)
      else r
    else
      let r := processTokens combined rowIdx isThumb hand ts (pos + p.width)
      (⟨rowIdx, pos, p.width, hand, isThumb⟩ :: r.1,
        (p.label.getD "") :: r.2.1, r.2.2)

/-- The mutable state threaded through `parseCombinedLayout`'s line loop. -/
structure CLState where
  physName : String
  mapName : String
  mapBase : String
  rows : JsInt
  columns : List JsInt
  thumb : List JsInt
  split : Bool
  stagger : String
  physKeys : List KeySlot
  layer0 : List String
  parsingFingers : Bool
  fingerValues : List (Option JsInt)
  isCombined : Bool
deriving DecidableEq, Repr

def initState : CLState :=
  { physName := "", mapName := "", mapBase := "", rows := .val 0, columns := [],
    thumb := [], split := false, stagger := "none", physKeys := [], layer0 := [],
    parsingFingers := false, fingerValues := [], isCombined := false }

/-- `line.match(/^\[kw:(chars)\]$/)` where `chars` is `[\w-]+` when
`dash = true` (the `[layout:...]`/`[mapping:...]` headers) and `\w+`
otherwise (the `[physical:...]` header). -/
def matchHeader (kw : List Char) (dash : Bool) (l : List Char) : Option String :=
  let pre := '[' :: (kw ++ [':'])
  if l.take pre.length = pre then
    let rest := l.drop pre.length
    match rest.getLast? with
    | some ']' =>
      let mid := rest.dropLast
      if !mid.isEmpty && mid.all (fun c => isWordC c || (dash && c = '-')) then
        some (String.mk mid)
      else none
    | _ => none
  else none

/-- `line.match(/^(\w+):\s*(.+)$/)`: a non-empty word-character key, a colon,
optional whitespace, then a non-empty value. Lines are trimmed before this
runs, so the value never consists of whitespace alone. -/
def kvMatch (l : List Char) : Option (List Char × List Char) :=
  let key := l.takeWhile isWordC
  if key.isEmpty then none
  else
    match l.drop key.length with
    | ':' :: rest =>
      let value := rest.dropWhile jsWs
      if value.isEmpty then none else some (key, value)
    | _ => none

/-- `isThumb ? -1 : parseInt(key.slice(3), 10)` — the row index of a
row-data line. -/
def rowIdxOf (key : List Char) : JsInt :=
  if key = "thumb".data then .val (-1) else parseIntJS (key.drop 3)

/-- Push one hand's token-loop results onto the state: the Key Slots onto
`physical.keys` and the labels onto `mapping.layers[0].keys`. -/
def appendHand (st : CLState) (res : List KeySlot × List String × Rat) : CLState :=
  { st with physKeys := st.physKeys ++ res.1, layer0 := st.layer0 ++ res.2.1 }

/-- The row-data branch of `parseCombinedLayout` (lines 166–254): split the
value on `|` into trimmed hands, and either accumulate finger values
(fingers mode, over all parts) or run the token loop on the first part as
the left hand and, when present and non-empty (`parts[1] || null`), the
second part as the right hand. -/
def processRowLine (st : CLState) (key value : List Char) : CLState :=
  if st.parsingFingers then
    { st with fingerValues := (st.fingerValues ++
        List.map (fun v => if v = ['.'] then none else some (parseIntJS v))
          (((splitCh '|' value).map trimStr).map wordsL).flatten) }
  else
    match (((splitCh '|' value).map trimStr).drop 1),
        appendHand st (processTokens st.isCombined (rowIdxOf key) (key = "thumb".data)
          "left" (wordsL (((splitCh '|' value).map trimStr).headD [])) 0) with
    | [], st1 => st1
    | r :: _, st1 =>
      if r.isEmpty then st1
      else
        appendHand st1 (processTokens st.isCombined (rowIdxOf key) (key = "thumb".data)
          "right" (wordsL r) 0)

/-- One iteration of `parseCombinedLayout`'s `for (const line of lines)` loop,
in source order: `[layout:]` header, legacy `[physical:]` and `[mapping:]`
headers, the `fingers:` marker, then the key-value forms (scalar directives,
the `thumb` counts-vs-row disambiguation, row data); anything else — note in
particular a `[layer:N]` line — matches no rule and leaves the state as is. -/
def processLine (st : CLState) (l : List Char) : CLState :=
  match matchHeader "layout".data true l with
  | some nm => { st with physName := nm, mapName := nm, mapBase := nm, isCombined := true }
  | none =>
  match matchHeader "physical".data false l with
  | some nm => { st with physName := nm }
  | none =>
  match matchHeader "mapping".data true l with
  | some nm => { st with mapName := nm }
  | none =>
  if l = "fingers:".data then { st with parsingFingers := true, fingerValues := [] }
  else
    match kvMatch l with
    | none => st
    | some (key, value) =>
      if key = "rows".data then { st with rows := parseIntJS value }
      else if key = "columns".data then
        { st with columns := (splitCh ',' value).map (fun v => parseIntJS (trimStr v)) }
      else if key = "split".data then { st with split := toLowerL value = "true".data }
      else if key = "stagger".data then { st with stagger := String.mk value }
      else if key = "base".data then { st with mapBase := String.mk value }
      else if key = "thumb".data && value.contains ',' && !value.contains '|'
          && !value.any isAlphaC then
        { st with thumb := (splitCh ',' value).map (fun v => parseIntJS (trimStr v)) }
      else if key.take 3 = "row".data || key = "thumb".data then
        processRowLine st key value
      else st

/-- `input.trim().split('\n').map(l => l.trim()).filter(l => l && !l.startsWith('#'))`. -/
def preprocessLines (input : String) : List (List Char) :=
  ((splitCh '\n' (trimStr input.data)).map trimStr).filter
    (fun l => !l.isEmpty && l.head? ≠ some '#')

/-- The `physical` half of `parseCombinedLayout`'s result. -/
structure Physical where
  name : String
  rows : JsInt
  columns : List JsInt
  thumb : List JsInt
  split : Bool
  stagger : String
  keys : List KeySlot
deriving DecidableEq, Repr

/-- One entry of `mapping.layers`. -/
structure Layer where
  keys : List String
deriving DecidableEq, Repr

/-- The `mapping` half of `parseCombinedLayout`'s result; `fingers` is `null`
(`none`) unless at least one finger value was accumulated. -/
structure KMapping where
  name : String
  base : String
  layers : List Layer
  fingers : Option (List (Option JsInt))
deriving DecidableEq, Repr

structure ParseResult where
  physical : Physical
  mapping : KMapping
deriving DecidableEq, Repr

/-- `parseCombinedLayout(input)` from layout-parser.js: preprocess the lines,
fold the line handler over them, and assemble the `{ physical, mapping }`
result. `mapping.layers` is the single layer-0 array built in lockstep with
`physical.keys` (the function creates `layers: [{keys: []}]` and never adds
another layer). -/
def parseCombinedLayout (input : String) : ParseResult :=
  let st := (preprocessLines input).foldl processLine initState
  { physical := { name := st.physName, rows := st.rows, columns := st.columns,
                  thumb := st.thumb, split := st.split, stagger := st.stagger,
                  keys := st.physKeys },
    mapping := { name := st.mapName, base := st.mapBase, layers := [⟨st.layer0⟩],
                 fingers := if 0 < st.fingerValues.length then some st.fingerValues else none } }

/-! ### ZMK importer: `ZMK_TO_LABEL` and `zmkToLabel` (zmk-parser.js) -/

/-- The `ZMK_TO_LABEL` keycode table, as an association list in source order
(the object literal has no duplicate keys). -/
def ZMK_TO_LABEL : List (String × String) :=
  [("A", "a"), ("B", "b"), ("C", "c"), ("D", "d"), ("E", "e"), ("F", "f"),
   ("G", "g"), ("H", "h"), ("I", "i"), ("J", "j"), ("K", "k"), ("L", "l"),
   ("M", "m"), ("N", "n"), ("O", "o"), ("P", "p"), ("Q", "q"), ("R", "r"),
   ("S", "s"), ("T", "t"), ("U", "u"), ("V", "v"), ("W", "w"), ("X", "x"),
   ("Y", "y"), ("Z", "z"),
   ("N0", "0"), ("N1", "1"), ("N2", "2"), ("N3", "3"), ("N4", "4"),
   ("N5", "5"), ("N6", "6"), ("N7", "7"), ("N8", "8"), ("N9", "9"),
   ("SPACE", "spc"), ("RET", "ent"), ("ENTER", "ent"), ("BSPC", "bspc"),
   ("BACKSPACE", "bspc"), ("TAB", "tab"), ("ESC", "esc"), ("ESCAPE", "esc"),
   ("DEL", "del"), ("DELETE", "del"),
   ("LSHFT", "lsft"), ("LSHIFT", "lsft"), ("LCTRL", "lctl"), ("LCTL", "lctl"),
   ("LALT", "lalt"), ("LGUI", "lgui"), ("LCMD", "lgui"), ("LWIN", "lgui"),
   ("LMETA", "lgui"),
   ("RSHFT", "rsft"), ("RSHIFT", "rsft"), ("RCTRL", "rctl"), ("RCTL", "rctl"),
   ("RALT", "ralt"), ("RGUI", "rgui"), ("RCMD", "rgui"), ("RWIN", "rgui"),
   ("RMETA", "rgui"),
   ("COMMA", ","), ("DOT", "."), ("PERIOD", "."), ("FSLH", "/"), ("SLASH", "/"),
   ("SEMI", ";"), ("SEMICOLON", ";"), ("COLON", ":"), ("SQT", "\x27"),
   ("APOS", "\x27"), ("APOSTROPHE", "\x27"), ("DQT", "\""),
   ("DOUBLE_QUOTES", "\""), ("LBKT", "["), ("RBKT", "]"), ("LBRC", "\x7b"),
   ("RBRC", "\x7d"), ("LPAR", "("), ("RPAR", ")"), ("LT", "<"), ("GT", ">"),
   ("BSLH", "\\"), ("BACKSLASH", "\\"), ("PIPE", "|"), ("MINUS", "-"),
   ("UNDER", "_"), ("UNDERSCORE", "_"), ("EQUAL", "="), ("PLUS", "+"),
   ("GRAVE", "\x60"), ("TILDE", "~"), ("QMARK", "?"), ("EXCL", "!"),
   ("AT", "@"), ("HASH", "#"), ("POUND", "#"), ("DLLR", "$"), ("DOLLAR", "$"),
   ("PRCNT", "%"), ("PERCENT", "%"), ("CARET", "^"), ("AMPS", "&"),
   ("STAR", "*"), ("ASTRK", "*"),
   ("C_VOL_UP", "vol+"), ("C_VOLUME_UP", "vol+"), ("C_VOL_DN", "vol-"),
   ("C_VOLUME_DOWN", "vol-"), ("K_MUTE", "mute"), ("C_MUTE", "mute"),
   ("C_PP", "play"), ("C_PLAY_PAUSE", "play"), ("C_NEXT", "next"),
   ("C_PREV", "prev"),
   ("UP", "↑"), ("DOWN", "↓"), ("LEFT", "←"), ("RIGHT", "→"),
   ("F1", "f1"), ("F2", "f2"), ("F3", "f3"), ("F4", "f4"), ("F5", "f5"),
   ("F6", "f6"), ("F7", "f7"), ("F8", "f8"), ("F9", "f9"), ("F10", "f10"),
   ("F11", "f11"), ("F12", "f12"),
   ("CAPS", "caps"), ("CAPSLOCK", "caps"), ("PSCRN", "psc"),
   ("PRINTSCREEN", "psc"), ("SLCK", "slk"), ("SCROLLLOCK", "slk"),
   ("PAUSE_BREAK", "brk"), ("INS", "ins"), ("INSERT", "ins"), ("HOME", "hom"),
   ("END", "end"), ("PG_UP", "pgu"), ("PAGE_UP", "pgu"), ("PG_DN", "pgd"),
   ("PAGE_DOWN", "pgd")]

def toLowerStr (s : String) : String := String.mk (toLowerL s.data)

def toUpperStr (s : String) : String := String.mk (toUpperL s.data)

/-- `zmkToLabel(keycode)`: table lookup on the keycode, then on its
upper-cased form, then the lower-cased keycode itself as fallback. -/
def zmkToLabel (keycode : String) : String :=
  match ZMK_TO_LABEL.lookup keycode with
  | some v => v
  | none =>
    match ZMK_TO_LABEL.lookup (toUpperStr keycode) with
    | some v => v
    | none => toLowerStr keycode

/-! ### ZMK importer: `parseBindings` (zmk-parser.js lines 217–343) -/

/-- `t.startsWith(p)` on the `List Char` model. -/
def strStarts (t p : String) : Bool := t.data.take p.data.length = p.data

/-- Does an argument look like a keycode: `/^[A-Z0-9_]+$/`, or a
modifier-wrapped form `/^L[CSAG]\(/` or `/^R[CSAG]\(/`. -/
def keycodeLike (s : String) : Bool :=
  (!s.data.isEmpty && s.data.all (fun c => ('A' ≤ c && c ≤ 'Z') || isDigitC c || c = '_'))
  || (match s.data with
      | a :: b :: '(' :: _ =>
        (a = 'L' || a = 'R') && (b = 'C' || b = 'S' || b = 'A' || b = 'G')
      | _ => false)

def strDrop (s : String) (n : Nat) : String := String.mk (s.data.drop n)

def strTake (s : String) (n : Nat) : String := String.mk (s.data.take n)

/-- One iteration of `parseBindings`' token loop: given the head token `t`
and the remaining tokens `rest`, the labels this binding expression pushes
and the number of further tokens it consumes from `rest` (the loop resumes
at `rest.drop k`). Exact-token branches are written as literal patterns —
they are mutually exclusive, so this is the source's if/else chain; tokens
that only start with `&kp` or `&`, and tokens that are no binding at all,
land in the final catch-all in the source's order. Where the source walks
past the end of the token list (`&lt`/`&mt` near the end, `&mo` and friends
as last token) the drop count simply exhausts `rest`, matching the
out-of-bounds `i` of the source. -/
def stepBinding (t : String) (rest : List String) : List String × Nat :=
  match t, rest with
  | "&kp", [] => ([], 0)
  | "&kp", kc :: _ => ([zmkToLabel kc], 1)
  | "&trans", _ => (["_"], 0)
  | "&none", _ => (["_"], 0)
  | "&lt", _ :: kc :: _ => ([zmkToLabel kc], 2)
  | "&lt", _ => ([], 2)
  | "&mt", _ :: kc :: _ => ([zmkToLabel kc], 2)
  | "&mt", _ => ([], 2)
  | "&mo", _ => (["mo"], 1)
  | "&to", _ => (["to"], 1)
  | "&tog", _ => (["tog"], 1)
  | "&sk", [] => ([], 0)
  | "&sk", kc :: _ => ([zmkToLabel kc], 1)
  | "&sl", _ => (["sl"], 1)
  | "&bt", [] => (["bt"], 0)
  | "&bt", "BT_SEL" :: n :: _ => (["bt" ++ n], 2)
  | "&bt", "BT_SEL" :: [] => (["bt"], 1)
  | "&bt", "BT_CLR" :: _ => (["btclr"], 1)
  | "&bt", _ :: _ => (["bt"], 1)
  | "&bootloader", _ => (["rst"], 0)
  | "&reset", _ => (["rst"], 0)
  | "&sys_reset", _ => (["rst"], 0)
  | "&out", _ => (["out"], 1)
  | "&studio_unlock", _ => (["_"], 0)
  | t, rest =>
    if strStarts t "&kp" then
      (if strDrop t 3 ≠ "" then [zmkToLabel (strDrop t 3)] else [], 0)
    else if strStarts t "&" then
      let args := rest.takeWhile (fun a => !strStarts a "&")
      (match (args.filter keycodeLike).getLast? with
       | some k => [zmkToLabel k]
       | none =>
         if args.length = 0 then
           let nm := strTake (toLowerStr (strDrop t 1)) 4
           [if nm = "" then "_" else nm]
         else ["_"],
       args.length)
    else ([], 0)

/-- The token loop of `parseBindings`: each iteration consumes the head
binding token plus the `stepBinding` drop count and emits that branch's
labels. -/
def parseBindingsTokens : List String → List String
  | [] => []
  | t :: rest =>
    (stepBinding t rest).1 ++ parseBindingsTokens (rest.drop (stepBinding t rest).2)
termination_by l => l.length
decreasing_by
  simp only [List.length_cons, List.length_drop]
  omega

/-- `parseBindings(bindingsStr)`: whitespace-split the string (dropping empty
tokens) and run the binding-expression loop. -/
def parseBindings (s : List Char) : List String :=
  parseBindingsTokens ((wordsL (trimStr s)).map String.mk)

/-! ### ZMK importer: `parseZmkKeymap` (zmk-parser.js lines 145–210) -/

/-- Does `/keymap\s*\{/` match at the start of `l`. -/
def keymapAt (l : List Char) : Bool :=
  l.take 6 = "keymap".data && ((l.drop 6).dropWhile jsWs).head? = some '{'

/-- `content.search(/keymap\s*\{/)`: the suffix of the content starting at
the first match, or `none` when there is no match (the source's `-1`). -/
def searchKeymap : List Char → Option (List Char)
  | [] => none
  | c :: cs => if keymapAt (c :: cs) then some (c :: cs) else searchKeymap cs

/-- The brace-depth loop of `parseZmkKeymap`, run on the suffix starting at
the keymap match: returns the length up to and including the brace that
closes the block (`keymapEnd - keymapStart`), or `none` when the braces
never re-balance. `depth` is the source's `braceCount`, `inK` its
`inKeymap`. -/
def findBlockEnd : List Char → Int → Bool → Nat → Option Nat
  | [], _, _, _ => none
  | c :: cs, depth, inK, n =>
    if c = '{' then findBlockEnd cs (depth + 1) true (n + 1)
    else if c = '}' then
      if inK && depth - 1 = 0 then some (n + 1)
      else findBlockEnd cs (depth - 1) inK (n + 1)
    else findBlockEnd cs depth inK (n + 1)

/-- Locating the keymap block's inner content: the source's
`content.slice(keymapOpenBrace + 1, keymapEnd - 1)`, with
`keymapOpenBrace = content.indexOf('{', keymapStart)`. `none` when either
the `keymap\s*{` search or the brace balancing fails. -/
def findKeymapBlock (content : List Char) : Option (List Char) :=
  match searchKeymap content with
  | none => none
  | some suffix =>
    match findBlockEnd suffix 0 false 0 with
    | none => none
    | some endLen =>
      let openIdx := (suffix.takeWhile (fun c => c ≠ '{')).length
      some ((suffix.take (endLen - 1)).drop (openIdx + 1))

/-- Does `/bindings\s*=\s*<([\s\S]*?)>/` match at the start of `l`; on
success, the captured (lazy, so up-to-first-`>`) group and the total length
of the match. -/
def matchBindingsAt (l : List Char) : Option (List Char × Nat) :=
  if l.take 8 = "bindings".data then
    let t1 := l.drop 8
    let w1 := (t1.takeWhile jsWs).length
    match t1.drop w1 with
    | '=' :: r2 =>
      let w2 := (r2.takeWhile jsWs).length
      match r2.drop w2 with
      | '<' :: r4 =>
        let grp := r4.takeWhile (fun c => c ≠ '>')
        match r4.drop grp.length with
        | '>' :: _ => some (grp, 8 + w1 + 1 + w2 + 1 + grp.length + 1)
        | _ => none
      | _ => none
    | _ => none
  else none

/-- The `bindingsPattern.exec` loop: scan the keymap content left to right;
at each match of the bindings pattern record the text before the match
(reversed — the source's `keymapContent.slice(0, bindingsStart)`) and the
captured group, then resume after the match (the regex's `lastIndex`). -/
def scanBindings (acc : List Char) : List Char → List (List Char × List Char)
  | [] => []
  | c :: cs =>
    match h : matchBindingsAt (c :: cs) with
    | some (grp, k) =>
      (acc, grp) ::
        scanBindings (((c :: cs).take k).reverse ++ acc) ((c :: cs).drop k)
    | none => scanBindings (c :: acc) cs
termination_by l => l.length
decreasing_by
  · have hk : 0 < k := by
      unfold matchBindingsAt at h
      split at h
      case isFalse => simp at h
      dsimp only at h
      repeat' split at h
      all_goals simp_all
      all_goals omega
    simp only [List.length_drop, List.length_cons]
    omega
  · simp

/-- The backward layer-name search
`beforeBindings.match(/(\w+)\s*\{[^{}]*$/)`, on the reversed before-text:
the matched `{` must be the last brace of the text, preceded (after optional
whitespace) by a non-empty word-character run, whose maximal extent is the
captured layer name. -/
def layerNameBefore (accRev : List Char) : Option (List Char) :=
  match accRev.dropWhile (fun c => !(c = '{' || c = '}')) with
  | '{' :: r2 =>
    let nm := (r2.dropWhile jsWs).takeWhile isWordC
    if nm.isEmpty then none else some nm.reverse
  | _ => none

/-- One entry of the importer's result `layers` array. -/
structure ZmkLayer where
  name : String
  keys : List String
deriving DecidableEq, Repr

/-- The importer's result `{ layers }`. -/
structure ZmkKeymap where
  layers : List ZmkLayer
deriving DecidableEq, Repr

/-- The body of the `while ((bindingsMatch = ...))` loop: every bindings
match whose backward layer-name search succeeds contributes a layer; the
others are skipped. -/
def extractLayers (kc : List Char) : List ZmkLayer :=
  (scanBindings [] kc).filterMap fun m =>
    (layerNameBefore m.1).map fun nm => ⟨String.mk nm, parseBindings m.2⟩

/-- `parseZmkKeymap(content)`: locate the keymap block (returning zero layers
when absent or unbalanced), then collect one layer per bindings match. -/
def parseZmkKeymap (content : String) : ZmkKeymap :=
  match findKeymapBlock content.data with
  | none => ⟨[]⟩
  | some kc => ⟨extractLayers kc⟩

/-! ### Predicates used by the statements below -/

/-- A line that matches one of `parseCombinedLayout`'s recognized forms:
one of the three headers, the `fingers:` marker, or a key-value line
(row data included). -/
def recognizedLine (l : List Char) : Bool :=
  (matchHeader "layout".data true l).isSome ||
  (matchHeader "physical".data false l).isSome ||
  (matchHeader "mapping".data true l).isSome ||
  l = "fingers:".data ||
  (kvMatch l).isSome

/-- The first preprocessed line of the document is a `[layout:...]` header
(vacuously true for an empty document), so the whole document is parsed in
combined format. -/
def firstLineIsLayoutHeader (input : String) : Bool :=
  match preprocessLines input with
  | [] => true
  | l :: _ => (matchHeader "layout".data true l).isSome

/-- Does this token emit a Key Slot in `parseCombinedLayout`'s token loop
(as opposed to a gap, or a zero-width physical-only token)? -/
def emitsKey (c : Bool) (t : List Char) : Bool :=
  let p := parseKeyToken t c
  if p.label = none ∧ 0 < p.width ∧ p.width < 1 then false
  else if p.isPhysicalOnly then decide (0 < p.width)
  else true

/-- The binding tokens `parseBindings` handles by a dedicated branch; any
other `&`-prefixed token is handled by the inline-`&kp` branch or the custom
behavior branch. -/
def knownBindingToks : List String :=
  ["&kp", "&trans", "&none", "&lt", "&mt", "&mo", "&to", "&tog", "&sk", "&sl",
   "&bt", "&bootloader", "&reset", "&sys_reset", "&out", "&studio_unlock"]

/-- A token that reaches the custom-behavior branch of `parseBindings`:
`&`-prefixed, not `&kp`-prefixed, and not one of the dedicated binding
tokens. -/
def isCustomBehavior (t : String) : Bool :=
  strStarts t "&" && !strStarts t "&kp" && !(knownBindingToks.contains t)

/-! ### Prototype-chain-faithful variant of the importer (for claim C10)

The definitions above model the JS expression `ZMK_TO_LABEL[keycode]` as an
own-property lookup in the table. Real JS property reads also consult the
prototype chain: on a plain object literal, reading a key named after an
`Object.prototype` member (`toString`, `constructor`, `valueOf`, …) yields
that inherited member — a truthy function (or, for `__proto__`, the
prototype object itself), not a string. The variant below carries this
through the importer, so that the behaviour of the program on such keycodes
can be stated and compared with the string-only model. -/

/-- A value a JS property read of the keycode table can produce: an own
string entry, or a member inherited from `Object.prototype` (a non-string
object — a function, or the prototype itself for `__proto__`). -/
inductive JsPropVal where
  | str : String → JsPropVal
  | inherited : String → JsPropVal
deriving DecidableEq, Repr

/-- The property names every plain JS object literal inherits from
`Object.prototype` (ECMAScript: `constructor`, the annex-B accessors
included). Reading any of these on `ZMK_TO_LABEL` yields a truthy
non-string value. -/
def objectProtoProps : List String :=
  ["constructor", "hasOwnProperty", "isPrototypeOf", "propertyIsEnumerable",
   "toLocaleString", "toString", "valueOf", "__defineGetter__",
   "__defineSetter__", "__lookupGetter__", "__lookupSetter__", "__proto__"]

/-- `ZMK_TO_LABEL[k]` with full JS lookup semantics: own entry first, then
the prototype chain; `none` is `undefined`. -/
def zmkTableRead (k : String) : Option JsPropVal :=
  match ZMK_TO_LABEL.lookup k with
  | some v => some (.str v)
  | none => if k ∈ objectProtoProps then some (.inherited k) else none

/-- JS truthiness of such a read: `undefined` and the empty string are
falsy, everything else here truthy. -/
def jsTruthy : Option JsPropVal → Bool
  | none => false
  | some (.str s) => s ≠ ""
  | some (.inherited _) => true

/-- Second half of the faithful `zmkToLabel`: the upper-cased lookup, then
the lower-cased fallback. -/
def zmkToLabelJsUpper (keycode : String) : JsPropVal :=
  match zmkTableRead (toUpperStr keycode) with
  | some v => if jsTruthy (some v) then v else .str (toLowerStr keycode)
  | none => .str (toLowerStr keycode)

/-- `zmkToLabel(keycode)` with prototype-chain-faithful table reads. On
every keycode whose lookups miss `Object.prototype` it agrees with the
string-only `zmkToLabel` (proved below); on a prototype property name it
returns the inherited non-string member, as the program does. -/
def zmkToLabelJs (keycode : String) : JsPropVal :=
  match zmkTableRead keycode with
  | some v => if jsTruthy (some v) then v else zmkToLabelJsUpper keycode
  | none => zmkToLabelJsUpper keycode

/-- `stepBinding` with the faithful keycode lookup: branch for branch the
same loop body, labels now `JsPropVal`. -/
def stepBindingJs (t : String) (rest : List String) : List JsPropVal × Nat :=
  match t, rest with
  | "&kp", [] => ([], 0)
  | "&kp", kc :: _ => ([zmkToLabelJs kc], 1)
  | "&trans", _ => ([.str "_"], 0)
  | "&none", _ => ([.str "_"], 0)
  | "&lt", _ :: kc :: _ => ([zmkToLabelJs kc], 2)
  | "&lt", _ => ([], 2)
  | "&mt", _ :: kc :: _ => ([zmkToLabelJs kc], 2)
  | "&mt", _ => ([], 2)
  | "&mo", _ => ([.str "mo"], 1)
  | "&to", _ => ([.str "to"], 1)
  | "&tog", _ => ([.str "tog"], 1)
  | "&sk", [] => ([], 0)
  | "&sk", kc :: _ => ([zmkToLabelJs kc], 1)
  | "&sl", _ => ([.str "sl"], 1)
  | "&bt", [] => ([.str "bt"], 0)
  | "&bt", "BT_SEL" :: n :: _ => ([.str ("bt" ++ n)], 2)
  | "&bt", "BT_SEL" :: [] => ([.str "bt"], 1)
  | "&bt", "BT_CLR" :: _ => ([.str "btclr"], 1)
  | "&bt", _ :: _ => ([.str "bt"], 1)
  | "&bootloader", _ => ([.str "rst"], 0)
  | "&reset", _ => ([.str "rst"], 0)
  | "&sys_reset", _ => ([.str "rst"], 0)
  | "&out", _ => ([.str "out"], 1)
  | "&studio_unlock", _ => ([.str "_"], 0)
  | t, rest =>
    if strStarts t "&kp" = true then
      (if strDrop t 3 ≠ "" then [zmkToLabelJs (strDrop t 3)] else [], 0)
    else if strStarts t "&" = true then
      let args := rest.takeWhile (fun a => !strStarts a "&")
      (match (args.filter keycodeLike).getLast? with
       | some k => [zmkToLabelJs k]
       | none =>
         if args.length = 0 then
           let nm := strTake (toLowerStr (strDrop t 1)) 4
           [.str (if nm = "" then "_" else nm)]
         else [.str "_"],
       args.length)
    else ([], 0)

/-- The binding loop over the faithful step. -/
def parseBindingsJsTokens : List String → List JsPropVal
  | [] => []
  | t :: rest =>
    (stepBindingJs t rest).1 ++ parseBindingsJsTokens (rest.drop (stepBindingJs t rest).2)
termination_by l => l.length
decreasing_by
  simp only [List.length_cons, List.length_drop]
  omega

/-- `parseBindings` with the faithful keycode lookup. -/
def parseBindingsJs (s : List Char) : List JsPropVal :=
  parseBindingsJsTokens ((wordsL (trimStr s)).map String.mk)

/-- A layer as the program really builds it: its `keys` elements are
whatever the property reads produced, strings or inherited objects. -/
structure ZmkLayerJs where
  name : String
  keys : List JsPropVal
deriving DecidableEq, Repr

structure ZmkKeymapJs where
  layers : List ZmkLayerJs
deriving DecidableEq, Repr

/-- The layer-collection loop over the faithful bindings parser (the block
location and bindings scanning are label-independent and shared). -/
def extractLayersJs (kc : List Char) : List ZmkLayerJs :=
  (scanBindings [] kc).filterMap fun m =>
    (layerNameBefore m.1).map fun nm => ⟨String.mk nm, parseBindingsJs m.2⟩

/-- `parseZmkKeymap` with prototype-chain-faithful keycode lookups. -/
def parseZmkKeymapJs (content : String) : ZmkKeymapJs :=
  match findKeymapBlock content.data with
  | none => ⟨[]⟩
  | some kc => ⟨extractLayersJs kc⟩

/-! ### Claim C8 — combined-format digit disambiguation -/

/-- C8: parsing the combined-format row `1 2 3 4 5 6 7 8 9 0 ¦` yields
exactly 10 Key Slots, all of width 1 and consecutive integer columns (the
trailing gap emits nothing), with layer-0 label sequence "1"…"9","0"; and
the token `"0"` classifies in combined format as a label of width 1, never
a gap. -/
theorem digit_row_ten_slots :
    (parseCombinedLayout "[layout:t]\nrow0: 1 2 3 4 5 6 7 8 9 0 ¦").physical.keys.length = 10 ∧
    (parseCombinedLayout "[layout:t]\nrow0: 1 2 3 4 5 6 7 8 9 0 ¦").mapping.layers =
      [⟨["1", "2", "3", "4", "5", "6", "7", "8", "9", "0"]⟩] ∧
    ((parseCombinedLayout "[layout:t]\nrow0: 1 2 3 4 5 6 7 8 9 0 ¦").physical.keys.map
      KeySlot.width) = List.replicate 10 1 ∧
    parseKeyToken ['0'] true = ⟨some "0", 1, false⟩ := by
  with_unfolding_all decide

/-! ### Claim C4 — `[layer:N]` in the combined parser -/

/-- C4 counterexample: `parseCombinedLayout` ignores `[layer:N]` lines.
After `[layout:t]\nrow0: a\n[layer:1]\nrow0: b` the mapping still has a
single layer holding both "a" and "b" (the claim demands more than one
layer); and a `[layer:2]` line does not leave finger-parsing mode: finger
rows after it are still consumed as finger data. -/
theorem layer_header_ignored_cex :
    (parseCombinedLayout "[layout:t]\nrow0: a\n[layer:1]\nrow0: b").mapping.layers =
      [⟨["a", "b"]⟩] ∧
    (parseCombinedLayout "[layout:t]\nrow0: a\nfingers:\nrow0: 1\n[layer:2]\nrow0: 3").mapping.fingers =
      some [some (.val 1), some (.val 3)] := by
  with_unfolding_all decide

/-- C4 amended: in `parseCombinedLayout`, `[layer:N]` matches no recognized
line form, so the result's `mapping.layers` has exactly one layer for every
input (multi-layer `[layer:N]` support exists only in the legacy
`parseKeyMapping`). -/
theorem combined_layers_always_one (input : String) :
    (parseCombinedLayout input).mapping.layers.length = 1 := rfl

/-! ### Claim C2 — no FormatError, the parser is total and permissive -/

/-- C2 counterexample: on an input with no header and no classifiable line,
`parseCombinedLayout` raises nothing and returns the ordinary empty result
structure (the source contains no `throw` and no `FormatError` at all). -/
theorem no_format_error_cex :
    parseCombinedLayout "not a valid layout" =
      ⟨⟨"", .val 0, [], [], false, "none", []⟩, ⟨"", "", [⟨[]⟩], none⟩⟩ := by
  with_unfolding_all decide

/-- C2 amended: the parser never fails; a line matching none of the
recognized forms (headers, `fingers:`, key-value) is silently ignored —
the line handler returns the state unchanged — and every input yields a
`{physical, mapping}` result structure. -/
theorem unclassifiable_line_ignored (st : CLState) (l : List Char)
    (h : recognizedLine l = false) : processLine st l = st := by
  have h1 : matchHeader "layout".data true l = none := by
    cases hm : matchHeader "layout".data true l with
    | none => rfl
    | some nm => rw [recognizedLine, hm] at h; simp at h
  have h2 : matchHeader "physical".data false l = none := by
    cases hm : matchHeader "physical".data false l with
    | none => rfl
    | some nm => rw [recognizedLine, hm] at h; simp at h
  have h3 : matchHeader "mapping".data true l = none := by
    cases hm : matchHeader "mapping".data true l with
    | none => rfl
    | some nm => rw [recognizedLine, hm] at h; simp at h
  have h5 : kvMatch l = none := by
    cases hm : kvMatch l with
    | none => rfl
    | some kv => rw [recognizedLine, hm] at h; simp at h
  have h4 : ¬(l = "fingers:".data) := by
    intro he
    rw [recognizedLine] at h
    simp [he] at h
  simp only [processLine, h1, h2, h3, h5, if_neg h4]

/-- C2 witness: the unrecognized line `[layer:1]` leaves the initial state
unchanged. -/
theorem unclassifiable_line_ignored_witness :
    processLine initState "[layer:1]".data = initState :=
  unclassifiable_line_ignored initState "[layer:1]".data (by with_unfolding_all decide)

/-! ### Claim C6 — the gap glyph -/

/-- C6 counterexample: the width-qualified form `¦:0.5` is not a gap. It is
captured by the `label:width` rule, classifying as a labeled key with label
`"¦"` and width 0.5, and in a combined document it emits a Key Slot and the
label `"¦"` — the claim demands no Key Slot and no label for `¦:w`. -/
theorem gap_glyph_width_qualified_cex :
    parseKeyToken "¦:0.5".data true = ⟨some "¦", (1 : Rat) / 2, false⟩ ∧
    (parseCombinedLayout "[layout:t]\nrow0: ¦:0.5 a").physical.keys =
      [⟨.val 0, 0, (1 : Rat) / 2, "left", false⟩,
       ⟨.val 0, (1 : Rat) / 2, 1, "left", false⟩] ∧
    (parseCombinedLayout "[layout:t]\nrow0: ¦:0.5 a").mapping.layers = [⟨["¦", "a"]⟩] := by
  refine ⟨?_, ?_, ?_⟩ <;> with_unfolding_all decide

/-- C6 amended: the bare gap glyph `¦` alone classifies as a gap in both
formats — label `null`, width 0.25, and the token loop emits no Key Slot
and no label for it, advancing the column cursor by exactly 0.25; the
width-qualified `¦:w` is instead a labeled key of label `"¦"` and width `w`
(see the counterexample). -/
theorem gap_glyph_bare (c : Bool) (r : JsInt) (th : Bool) (hand : String)
    (toks : List (List Char)) (pos : Rat) :
    parseKeyToken ['¦'] c = ⟨none, (1 : Rat) / 4, true⟩ ∧
    processTokens c r th hand (['¦'] :: toks) pos =
      processTokens c r th hand toks (pos + (1 : Rat) / 4) := by
  have hp : parseKeyToken ['¦'] c = ⟨none, (1 : Rat) / 4, true⟩ := by
    cases c <;> with_unfolding_all decide
  refine ⟨hp, ?_⟩
  rw [processTokens, hp]
  rw [if_pos ⟨rfl, by norm_num, by norm_num⟩]

/-! ### Claim C7 — column monotonicity -/

/-- Auxiliary: in one run of the token loop, if every slot-emitting token
has positive width then every emitted column is at least the starting
cursor, and the emitted columns strictly increase. -/
theorem processTokens_cols_mono (c : Bool) (r : JsInt) (th : Bool) (hand : String) :
    ∀ (toks : List (List Char)) (pos : Rat),
      (∀ t ∈ toks, emitsKey c t = true → 0 < (parseKeyToken t c).width) →
      (∀ s ∈ (processTokens c r th hand toks pos).1, pos ≤ s.col) ∧
      (processTokens c r th hand toks pos).1.Chain' (fun a b => a.col < b.col) := by
  intro toks
  induction toks with
  | nil => intro pos _; simp [processTokens]
  | cons t ts ih =>
    intro pos h
    have hts : ∀ x ∈ ts, emitsKey c x = true → 0 < (parseKeyToken x c).width :=
      fun x hx => h x (List.mem_cons_of_mem _ hx)
    simp only [processTokens]
    by_cases hg : (parseKeyToken t c).label = none ∧ 0 < (parseKeyToken t c).width ∧
        (parseKeyToken t c).width < 1
    · rw [if_pos hg]
      have hr := ih (pos + (parseKeyToken t c).width) hts
      exact ⟨fun s hs => le_trans (by linarith [hg.2.1]) (hr.1 s hs), hr.2⟩
    · rw [if_neg hg]
      by_cases hpo : (parseKeyToken t c).isPhysicalOnly = true
      · rw [if_pos hpo]
        by_cases hw : 0 < (parseKeyToken t c).width
        · rw [if_pos hw, if_pos hw]
          have hr := ih (pos + (parseKeyToken t c).width) hts
          refine ⟨?_, ?_⟩
          · intro s hs
            rcases List.mem_cons.mp hs with hs | hs
            · rw [hs]
            · exact le_trans (by linarith) (hr.1 s hs)
          · refine List.Chain'.cons' hr.2 ?_
            intro y hy
            have hyc := hr.1 y (List.mem_of_mem_head? hy)
            show pos < y.col
            linarith
        · rw [if_neg hw, if_neg hw]
          have hr := ih (pos + 1) hts
          exact ⟨fun s hs => le_trans (by linarith) (hr.1 s hs), hr.2⟩
      · rw [if_neg hpo]
        have hw : 0 < (parseKeyToken t c).width := by
          apply h t (List.mem_cons_self _ _)
          rw [emitsKey]
          rw [if_neg hg]
          rw [Bool.not_eq_true] at hpo
          simp [hpo]
        have hr := ih (pos + (parseKeyToken t c).width) hts
        refine ⟨?_, ?_⟩
        · intro s hs
          rcases List.mem_cons.mp hs with hs | hs
          · rw [hs]
          · exact le_trans (by linarith) (hr.1 s hs)
        · refine List.Chain'.cons' hr.2 ?_
          intro y hy
          have hyc := hr.1 y (List.mem_of_mem_head? hy)
          show pos < y.col
          linarith

/-- C7 counterexample: the zero-width key token `a:0` emits a Key Slot at
the cursor and advances by 0, so the next key lands at the same column —
`[layout:t]\nrow0: a:0 b` produces two slots of the same row and hand both
at column 0, and the claimed strict increase fails. -/
theorem col_monotonicity_cex :
    (parseCombinedLayout "[layout:t]\nrow0: a:0 b").physical.keys =
      [⟨.val 0, 0, 0, "left", false⟩, ⟨.val 0, 0, 1, "left", false⟩] ∧
    ¬ (parseCombinedLayout "[layout:t]\nrow0: a:0 b").physical.keys.Chain'
        (fun a b => a.col < b.col) := by
  have h1 : (parseCombinedLayout "[layout:t]\nrow0: a:0 b").physical.keys =
      [⟨.val 0, 0, 0, "left", false⟩, ⟨.val 0, 0, 1, "left", false⟩] := by
    with_unfolding_all decide
  refine ⟨h1, ?_⟩
  rw [h1, List.chain'_cons]
  intro hch
  exact absurd hch.1 (lt_irrefl 0)

/-- C7 amended: within the slots emitted by one run of the token loop (one
row line, one hand), columns strictly increase provided every slot-emitting
token of that run has positive width (a `label:0` token breaks this, see the
counterexample; a second line for the same row and hand restarts the cursor
at 0); gap tokens emit no slot and advance the cursor (see the bare-gap
theorem), and the combined row `¦ a ¦ b ¦` places `a` at column 0.25 and
`b` at column 1.5 exactly as the claim computes. -/
theorem col_monotonicity (c : Bool) (r : JsInt) (th : Bool) (hand : String)
    (toks : List (List Char)) (pos : Rat)
    (h : ∀ t ∈ toks, emitsKey c t = true → 0 < (parseKeyToken t c).width) :
    (processTokens c r th hand toks pos).1.Chain' (fun a b => a.col < b.col) ∧
    (parseCombinedLayout "[layout:t]\nrow0: ¦ a ¦ b ¦").physical.keys =
      [⟨.val 0, (1 : Rat) / 4, 1, "left", false⟩,
       ⟨.val 0, (3 : Rat) / 2, 1, "left", false⟩] ∧
    (parseCombinedLayout "[layout:t]\nrow0: ¦ a ¦ b ¦").mapping.layers = [⟨["a", "b"]⟩] :=
  ⟨(processTokens_cols_mono c r th hand toks pos h).2,
   by with_unfolding_all decide,
   by with_unfolding_all decide⟩

/-- C7 witness: the strict-increase conclusion at a concrete token run. -/
theorem col_monotonicity_witness :
    (processTokens true (.val 0) false "left" [['a'], ['b']] 0).1.Chain'
      (fun a b => a.col < b.col) :=
  (col_monotonicity true (.val 0) false "left" [['a'], ['b']] 0
    (by with_unfolding_all decide)).1

/-! ### Claim C1 — index alignment -/

/-- In combined format the only token classified `isPhysicalOnly` is the
bare gap glyph. -/
theorem parseKeyToken_combined_physOnly (t : List Char)
    (h : (parseKeyToken t true).isPhysicalOnly = true) :
    parseKeyToken t true = ⟨none, (1 : Rat) / 4, true⟩ := by
  cases hc : colonMatchTok t with
  | some lw =>
    obtain ⟨lab, w⟩ := lw
    rw [parseKeyToken, hc] at h
    simp at h
  | none =>
    rw [parseKeyToken, hc] at h ⊢
    by_cases h1 : t = ['¦']
    · rw [if_pos h1]
    · rw [if_neg h1] at h ⊢
      by_cases h2 : isNumericTok t = true
      · rw [if_pos h2] at h; simp at h
      · rw [if_neg h2] at h; simp at h

/-- In combined format one run of the token loop emits exactly as many
labels as Key Slots. -/
theorem processTokens_len_combined (r : JsInt) (th : Bool) (hand : String) :
    ∀ (toks : List (List Char)) (pos : Rat),
      (processTokens true r th hand toks pos).1.length =
        (processTokens true r th hand toks pos).2.1.length := by
  intro toks
  induction toks with
  | nil => intro pos; simp [processTokens]
  | cons t ts ih =>
    intro pos
    simp only [processTokens]
    by_cases hg : (parseKeyToken t true).label = none ∧ 0 < (parseKeyToken t true).width ∧
        (parseKeyToken t true).width < 1
    · rw [if_pos hg]; exact ih _
    · rw [if_neg hg]
      by_cases hpo : (parseKeyToken t true).isPhysicalOnly = true
      · exact absurd (by rw [parseKeyToken_combined_physOnly t hpo]; exact ⟨rfl, by norm_num, by norm_num⟩) hg
      · rw [if_neg hpo]
        simp only [List.length_cons]
        rw [ih _]

/-- `appendHand` preserves combined mode and, when the pushed result has as
many slots as labels, the key/label count equality. -/
theorem appendHand_preserves (st : CLState) (res : List KeySlot × List String × Rat)
    (hlen : st.physKeys.length = st.layer0.length)
    (hres : res.1.length = res.2.1.length) :
    (appendHand st res).isCombined = st.isCombined ∧
    (appendHand st res).physKeys.length = (appendHand st res).layer0.length := by
  refine ⟨rfl, ?_⟩
  simp only [appendHand, List.length_append, hlen, hres]

/-- `processRowLine` preserves combined mode and the key/label count
equality. -/
theorem processRowLine_preserves (st : CLState) (key value : List Char)
    (hc : st.isCombined = true) (hlen : st.physKeys.length = st.layer0.length) :
    (processRowLine st key value).isCombined = true ∧
    (processRowLine st key value).physKeys.length =
      (processRowLine st key value).layer0.length := by
  rw [processRowLine]
  by_cases hf : st.parsingFingers = true
  · rw [if_pos hf]
    exact ⟨hc, hlen⟩
  · rw [if_neg hf, hc]
    have hl2 := (appendHand_preserves st
      (processTokens true (rowIdxOf key) (key = "thumb".data) "left"
        (wordsL (((splitCh '|' value).map trimStr).headD [])) 0)
      hlen (processTokens_len_combined _ _ _ _ _)).2
    cases hrp : (((splitCh '|' value).map trimStr).drop 1) with
    | nil => exact ⟨hc, hl2⟩
    | cons rp rps =>
      by_cases he : rp.isEmpty = true
      · dsimp only
        rw [if_pos he]
        exact ⟨hc, hl2⟩
      · dsimp only
        rw [if_neg he]
        exact ⟨hc, (appendHand_preserves _
          (processTokens true (rowIdxOf key) (key = "thumb".data) "right" (wordsL rp) 0)
          hl2 (processTokens_len_combined _ _ _ _ _)).2⟩

/-- `processLine` preserves combined mode and the key/label count
equality. -/
theorem processLine_preserves (st : CLState) (l : List Char)
    (hc : st.isCombined = true) (hlen : st.physKeys.length = st.layer0.length) :
    (processLine st l).isCombined = true ∧
    (processLine st l).physKeys.length = (processLine st l).layer0.length := by
  rw [processLine]
  cases h1 : matchHeader "layout".data true l with
  | some nm => exact ⟨rfl, hlen⟩
  | none =>
  cases h2 : matchHeader "physical".data false l with
  | some nm => exact ⟨hc, hlen⟩
  | none =>
  cases h3 : matchHeader "mapping".data true l with
  | some nm => exact ⟨hc, hlen⟩
  | none =>
  by_cases h4 : l = "fingers:".data
  · rw [if_pos h4]; exact ⟨hc, hlen⟩
  · rw [if_neg h4]
    cases h5 : kvMatch l with
    | none => exact ⟨hc, hlen⟩
    | some kv =>
      obtain ⟨key, value⟩ := kv
      dsimp only
      by_cases k1 : key = "rows".data
      · rw [if_pos k1]; exact ⟨hc, hlen⟩
      · rw [if_neg k1]
        by_cases k2 : key = "columns".data
        · rw [if_pos k2]; exact ⟨hc, hlen⟩
        · rw [if_neg k2]
          by_cases k3 : key = "split".data
          · rw [if_pos k3]; exact ⟨hc, hlen⟩
          · rw [if_neg k3]
            by_cases k4 : key = "stagger".data
            · rw [if_pos k4]; exact ⟨hc, hlen⟩
            · rw [if_neg k4]
              by_cases k5 : key = "base".data
              · rw [if_pos k5]; exact ⟨hc, hlen⟩
              · rw [if_neg k5]
                by_cases k6 : (key = "thumb".data && value.contains ',' &&
                    !value.contains '|' && !value.any isAlphaC) = true
                · rw [if_pos k6]; exact ⟨hc, hlen⟩
                · rw [if_neg k6]
                  by_cases k7 : (decide (List.take 3 key = "row".data) ||
                      decide (key = "thumb".data)) = true
                  · rw [if_pos k7]
                    exact processRowLine_preserves st key value hc hlen
                  · rw [if_neg k7]; exact ⟨hc, hlen⟩

/-- Folding the line handler from a combined-mode state with equal counts
keeps combined mode and equal counts. -/
theorem foldl_processLine_preserves :
    ∀ (lines : List (List Char)) (st : CLState),
      st.isCombined = true → st.physKeys.length = st.layer0.length →
      (lines.foldl processLine st).isCombined = true ∧
      (lines.foldl processLine st).physKeys.length =
        (lines.foldl processLine st).layer0.length := by
  intro lines
  induction lines with
  | nil => intro st h1 h2; exact ⟨h1, h2⟩
  | cons l ls ih =>
    intro st h1 h2
    have hp := processLine_preserves st l h1 h2
    simpa [List.foldl_cons] using ih _ hp.1 hp.2

/-- C1 counterexample: the parser does not validate the fingers count. For
`[layout:t]\nrow0: a\nfingers:\nrow0: 1 2` the mapping's fingers array is
non-null with two entries while there is a single physical key (and a
single layer-0 label), so the claimed `mapping.fingers` length equality
fails. -/
theorem index_alignment_cex :
    (parseCombinedLayout "[layout:t]\nrow0: a\nfingers:\nrow0: 1 2").mapping.fingers =
      some [some (.val 1), some (.val 2)] ∧
    (parseCombinedLayout "[layout:t]\nrow0: a\nfingers:\nrow0: 1 2").physical.keys.length = 1 ∧
    (parseCombinedLayout "[layout:t]\nrow0: a\nfingers:\nrow0: 1 2").mapping.layers =
      [⟨["a"]⟩] := by
  refine ⟨?_, ?_, ?_⟩ <;> with_unfolding_all decide

/-- C1 amended: for every document whose first line is a `[layout:...]`
header (so every row is parsed in combined format), `physical.keys` and
`mapping.layers[0].keys` have the same length — they are pushed in
lockstep. Without the leading header, physical-only numeric rows add
unlabeled Key Slots; and `mapping.fingers`, when non-null, is whatever the
`fingers:` rows contained — its length is never validated against the key
count (see the counterexample). -/
theorem index_alignment (input : String)
    (h : firstLineIsLayoutHeader input = true) :
    (parseCombinedLayout input).physical.keys.length =
      ((parseCombinedLayout input).mapping.layers.headD ⟨[]⟩).keys.length := by
  rw [parseCombinedLayout]
  rw [firstLineIsLayoutHeader] at h
  cases hls : preprocessLines input with
  | nil => rfl
  | cons l ls =>
    rw [hls] at h
    cases hm : matchHeader "layout".data true l with
    | none => simp [hm] at h
    | some nm =>
      have hfirst : processLine initState l =
          { initState with physName := nm, mapName := nm, mapBase := nm, isCombined := true } := by
        rw [processLine, hm]
      have := foldl_processLine_preserves ls (processLine initState l)
        (by rw [hfirst]) (by rw [hfirst]; rfl)
      simpa [List.foldl_cons] using this.2

/-- C1 witness: the alignment at a concrete combined document. -/
theorem index_alignment_witness :
    (parseCombinedLayout "[layout:t]\nrow0: a b").physical.keys.length =
      ((parseCombinedLayout "[layout:t]\nrow0: a b").mapping.layers.headD ⟨[]⟩).keys.length :=
  index_alignment "[layout:t]\nrow0: a b" (by with_unfolding_all decide)

/-! ### Claim C3 — ZMK system bindings -/

/-- C3: in the binding-expression loop, `&bt BT_CLR` emits "btclr",
`&bt BT_SEL n` emits "bt" followed by the selector argument, any other
`&bt cmd` emits "bt" (consuming `cmd`), each of `&bootloader`, `&reset` and
`&sys_reset` emits "rst", and `&out arg` emits "out" discarding the
argument — in every case the loop then continues on the remaining tokens. -/
theorem zmk_system_bindings (rest : List String) (n cmd arg : String)
    (h1 : cmd ≠ "BT_CLR") (h2 : cmd ≠ "BT_SEL") :
    parseBindingsTokens ("&bt" :: "BT_CLR" :: rest) = "btclr" :: parseBindingsTokens rest ∧
    parseBindingsTokens ("&bt" :: "BT_SEL" :: n :: rest) =
      ("bt" ++ n) :: parseBindingsTokens rest ∧
    parseBindingsTokens ("&bt" :: cmd :: rest) = "bt" :: parseBindingsTokens rest ∧
    parseBindingsTokens ("&bootloader" :: rest) = "rst" :: parseBindingsTokens rest ∧
    parseBindingsTokens ("&reset" :: rest) = "rst" :: parseBindingsTokens rest ∧
    parseBindingsTokens ("&sys_reset" :: rest) = "rst" :: parseBindingsTokens rest ∧
    parseBindingsTokens ("&out" :: arg :: rest) = "out" :: parseBindingsTokens rest := by
  refine ⟨?_, ?_, ?_, ?_, ?_, ?_, ?_⟩
  · simp [parseBindingsTokens, stepBinding]
  · simp [parseBindingsTokens, stepBinding]
  · simp [parseBindingsTokens, stepBinding, h1, h2]
  · simp [parseBindingsTokens, stepBinding]
  · simp [parseBindingsTokens, stepBinding]
  · simp [parseBindingsTokens, stepBinding]
  · simp [parseBindingsTokens, stepBinding]

/-- C3 witness: the system-binding equations at concrete inputs. -/
theorem zmk_system_bindings_witness :
    parseBindingsTokens ["&bt", "BT_NXT"] = ["bt"] ∧
    parseBindingsTokens ["&bt", "BT_SEL", "2", "&bootloader"] = ["bt2", "rst"] := by
  constructor
  · have h := (zmk_system_bindings [] "2" "BT_NXT" "OUT_TOG" (by decide) (by decide)).2.2.1
    simpa [parseBindingsTokens] using h
  · have h := (zmk_system_bindings ["&bootloader"] "2" "BT_NXT" "OUT_TOG"
      (by decide) (by decide)).2.1
    rw [h]
    have h2 := (zmk_system_bindings [] "2" "BT_NXT" "OUT_TOG" (by decide) (by decide)).2.2.2.1
    simpa [parseBindingsTokens] using h2

/-! ### Claim C5 — custom ZMK behaviors -/

/-- `takeWhile`/`drop` across an append whose left part satisfies the
predicate everywhere and whose right part starts (if at all) with a
failure. -/
theorem takeWhile_append_of_all {α : Type} (p : α → Bool) (xs ys : List α)
    (hx : ∀ x ∈ xs, p x = true) (hy : ∀ y ∈ ys.head?, p y = false) :
    (xs ++ ys).takeWhile p = xs ∧ (xs ++ ys).drop xs.length = ys := by
  constructor
  · induction xs with
    | nil =>
      cases ys with
      | nil => rfl
      | cons b bs => simp only [List.nil_append, List.takeWhile]; simp [hy b (by simp)]
    | cons a as ih =>
      simp only [List.cons_append, List.takeWhile, hx a (by simp), List.append_eq]
      rw [ih (fun x hxx => hx x (by simp [hxx]))]
  · exact List.drop_left xs ys

/-- The custom-behavior branch of the binding loop, isolated: for an
`&`-token that is not `&kp`-prefixed and not a dedicated binding, one step
consumes the maximal run of non-`&` arguments and emits the label
prescribed by the custom rule. -/
theorem stepBinding_custom (t : String) (rest : List String)
    (hamp : strStarts t "&" = true) (hkp : strStarts t "&kp" = false)
    (hnm : t ∉ knownBindingToks) :
    stepBinding t rest =
      ((match ((rest.takeWhile (fun a => !strStarts a "&")).filter keycodeLike).getLast? with
        | some k => [zmkToLabel k]
        | none =>
          if (rest.takeWhile (fun a => !strStarts a "&")).length = 0 then
            [if strTake (toLowerStr (strDrop t 1)) 4 = "" then "_"
             else strTake (toLowerStr (strDrop t 1)) 4]
          else ["_"]),
       (rest.takeWhile (fun a => !strStarts a "&")).length) := by
  simp only [knownBindingToks, List.mem_cons, List.not_mem_nil, or_false] at hnm
  push_neg at hnm
  obtain ⟨n1, n2, n3, n4, n5, n6, n7, n8, n9, n10, n11, n12, n13, n14, n15, n16⟩ := hnm
  rw [stepBinding.eq_def]
  split
  all_goals try (exfalso; simp_all; done)
  rw [if_neg (by rw [hkp]; exact Bool.false_ne_true), if_pos hamp]

/-- C5 counterexample: the zero-argument fallback emits the first 4
characters of the LOWERCASED behavior name, not of the name itself: the
zero-argument custom behavior `&ABCDE` emits "abcd", while the claim as
stated demands the name's own first 4 characters "ABCD". -/
theorem zmk_custom_behavior_cex :
    parseBindingsTokens ["&ABCDE"] = ["abcd"] ∧
    strTake "ABCDE" 4 = "ABCD" ∧
    ("abcd" : String) ≠ "ABCD" := by
  refine ⟨?_, ?_, ?_⟩ <;> with_unfolding_all decide

/-- C5 amended: a custom behavior token (`&`-prefixed, not `&kp`-prefixed,
not a dedicated binding) greedily consumes the following non-`&`-prefixed
tokens as arguments; if some argument looks like a keycode (`^[A-Z0-9_]+$`
or a modifier wrap `L?(`/`R?(` with `C`/`S`/`A`/`G`), the label of the last
such argument is emitted; with zero arguments the first 4 characters of the
lowercased behavior name are emitted (`"_"` when that is empty); otherwise
`"_"` is emitted; and `&studio_unlock` is a dedicated branch emitting
`"_"`. -/
theorem zmk_custom_behavior (t : String) (args rest : List String) (k : String)
    (hc : isCustomBehavior t = true)
    (hargs : ∀ a ∈ args, strStarts a "&" = false)
    (hrest : ∀ r ∈ rest.head?, strStarts r "&" = true) :
    ((args.filter keycodeLike).getLast? = some k →
      parseBindingsTokens (t :: (args ++ rest)) =
        zmkToLabel k :: parseBindingsTokens rest) ∧
    (parseBindingsTokens (t :: rest) =
      (if strTake (toLowerStr (strDrop t 1)) 4 = "" then "_"
       else strTake (toLowerStr (strDrop t 1)) 4) :: parseBindingsTokens rest) ∧
    (args ≠ [] → args.filter keycodeLike = [] →
      parseBindingsTokens (t :: (args ++ rest)) = "_" :: parseBindingsTokens rest) ∧
    parseBindingsTokens ("&studio_unlock" :: rest) = "_" :: parseBindingsTokens rest := by
  rw [isCustomBehavior, Bool.and_eq_true, Bool.and_eq_true] at hc
  obtain ⟨⟨hamp, hkp⟩, hmem⟩ := hc
  rw [Bool.not_eq_true'] at hkp
  have hnm : t ∉ knownBindingToks := by simpa using hmem
  have htw := takeWhile_append_of_all (fun a => !strStarts a "&") args rest
    (fun a ha => by simp [hargs a ha]) (fun y hyy => by simp [hrest y hyy])
  have htwr : rest.takeWhile (fun a => !strStarts a "&") = [] := by
    cases rest with
    | nil => rfl
    | cons r rs =>
      simp only [List.takeWhile]
      simp [hrest r rfl]
  refine ⟨?_, ?_, ?_, ?_⟩
  · intro hlk
    rw [parseBindingsTokens, stepBinding_custom t (args ++ rest) hamp hkp hnm]
    simp only [htw.1, htw.2, hlk]
    rfl
  · rw [parseBindingsTokens, stepBinding_custom t rest hamp hkp hnm]
    simp only [htwr, List.filter_nil, List.getLast?_nil, List.length_nil, if_pos rfl,
      List.drop_zero]
    simp
  · intro hne hfk
    rw [parseBindingsTokens, stepBinding_custom t (args ++ rest) hamp hkp hnm]
    simp only [htw.1, htw.2, hfk, List.getLast?_nil]
    rw [if_neg (by simpa using hne)]
    rfl
  · simp [parseBindingsTokens, stepBinding]

/-! ### Claim C9 — malformed ZMK input containment -/

/-- C9: the ZMK keymap parser returns `{layers: []}` (and cannot throw — it
is a total function) whenever the `keymap\s*{` search fails, and whenever a
keymap block is found but contains no bindings match; in particular on
"not a valid keymap". -/
theorem zmk_malformed_containment :
    parseZmkKeymap "not a valid keymap" = ⟨[]⟩ ∧
    (∀ content : String, searchKeymap content.data = none → parseZmkKeymap content = ⟨[]⟩) ∧
    (∀ content : String, ∀ kc, findKeymapBlock content.data = some kc →
      scanBindings [] kc = [] → parseZmkKeymap content = ⟨[]⟩) := by
  refine ⟨?_, ?_, ?_⟩
  · with_unfolding_all decide
  · intro content h
    simp [parseZmkKeymap, findKeymapBlock, h]
  · intro content kc h1 h2
    simp [parseZmkKeymap, h1, extractLayers, h2]

/-- C9 witness: the no-keymap-block case at a concrete input. -/
theorem zmk_malformed_containment_witness : parseZmkKeymap "" = ⟨[]⟩ :=
  zmk_malformed_containment.2.1 "" (by with_unfolding_all decide)

/-! ### Claim C10 — label non-emptiness -/

theorem mk_ne_empty {l : List Char} (h : l ≠ []) : String.mk l ≠ "" := by
  intro he
  apply h
  have hd := congrArg String.data he
  simpa using hd

theorem str_append_ne (a b : String) (h : a.data ≠ []) : a ++ b ≠ "" := by
  cases a with
  | mk la =>
  cases b with
  | mk lb =>
    show String.mk (la ++ lb) ≠ ""
    apply mk_ne_empty
    simp only [ne_eq, List.append_eq_nil]
    intro hc
    exact h (by simpa using hc.1)

theorem keycodeLike_ne {s : String} (h : keycodeLike s = true) : s ≠ "" := by
  intro he
  rw [he] at h
  exact absurd h (by with_unfolding_all decide)

set_option maxRecDepth 4000 in
/-- Every right-hand side in the keycode table is a non-empty string. -/
theorem zmk_table_vals_ne : ∀ p ∈ ZMK_TO_LABEL, p.2 ≠ "" := by
  with_unfolding_all decide

theorem lookup_val_ne {l : List (String × String)} (hl : ∀ p ∈ l, p.2 ≠ "") :
    ∀ {k v : String}, l.lookup k = some v → v ≠ "" := by
  induction l with
  | nil => intro k v h; simp [List.lookup] at h
  | cons p ps ih =>
    intro k v h
    obtain ⟨a, b⟩ := p
    rw [List.lookup] at h
    by_cases hk : (k == a) = true
    · rw [hk] at h
      simp only [Option.some.injEq] at h
      rw [← h]
      exact hl (a, b) (by simp)
    · rw [Bool.not_eq_true] at hk
      rw [hk] at h
      exact ih (fun q hq => hl q (by simp [hq])) h

/-- The keycode → label bridge never produces the empty string on a
non-empty keycode. -/
theorem zmkToLabel_ne (s : String) (hs : s ≠ "") : zmkToLabel s ≠ "" := by
  rw [zmkToLabel]
  cases h1 : ZMK_TO_LABEL.lookup s with
  | some v => exact lookup_val_ne zmk_table_vals_ne h1
  | none =>
    cases h2 : ZMK_TO_LABEL.lookup (toUpperStr s) with
    | some v => exact lookup_val_ne zmk_table_vals_ne h2
    | none =>
      have hsd : s.data ≠ [] := by
        intro hd
        exact hs (String.ext hd)
      apply mk_ne_empty
      simpa [toLowerL] using hsd

/-- The catch-all of the binding step, with the literal arms ruled out. -/
theorem stepBinding_fallback (t : String) (rest : List String)
    (hnm : t ∉ knownBindingToks) :
    stepBinding t rest =
      (if strStarts t "&kp" = true then
        (if strDrop t 3 ≠ "" then [zmkToLabel (strDrop t 3)] else [], 0)
      else if strStarts t "&" = true then
        ((match ((rest.takeWhile (fun a => !strStarts a "&")).filter keycodeLike).getLast? with
          | some k => [zmkToLabel k]
          | none =>
            if (rest.takeWhile (fun a => !strStarts a "&")).length = 0 then
              [if strTake (toLowerStr (strDrop t 1)) 4 = "" then "_"
               else strTake (toLowerStr (strDrop t 1)) 4]
            else ["_"]),
         (rest.takeWhile (fun a => !strStarts a "&")).length)
      else ([], 0)) := by
  simp only [knownBindingToks, List.mem_cons, List.not_mem_nil, or_false] at hnm
  push_neg at hnm
  obtain ⟨n1, n2, n3, n4, n5, n6, n7, n8, n9, n10, n11, n12, n13, n14, n15, n16⟩ := hnm
  rw [stepBinding.eq_def]
  split
  all_goals try (exfalso; simp_all; done)
  rfl

/-- Every label one binding step emits is non-empty, provided the argument
tokens are non-empty (as whitespace-split tokens are). -/
theorem stepBinding_labels_ne (t : String) (rest : List String)
    (hr : ∀ x ∈ rest, x ≠ "") :
    ∀ lab ∈ (stepBinding t rest).1, lab ≠ "" := by
  by_cases h1 : t = "&kp"
  · subst h1
    cases rest with
    | nil => simp [stepBinding]
    | cons kc r2 =>
      intro lab hm
      simp only [stepBinding, List.mem_singleton] at hm
      rw [hm]
      exact zmkToLabel_ne kc (hr kc (by simp))
  by_cases h2 : t = "&trans"
  · subst h2; simp [stepBinding]
  by_cases h3 : t = "&none"
  · subst h3; simp [stepBinding]
  by_cases h4 : t = "&lt"
  · subst h4
    match rest with
    | [] => simp [stepBinding]
    | [a] => simp [stepBinding]
    | a :: kc :: r3 =>
      intro lab hm
      simp only [stepBinding, List.mem_singleton] at hm
      rw [hm]
      exact zmkToLabel_ne kc (hr kc (by simp))
  by_cases h5 : t = "&mt"
  · subst h5
    match rest with
    | [] => simp [stepBinding]
    | [a] => simp [stepBinding]
    | a :: kc :: r3 =>
      intro lab hm
      simp only [stepBinding, List.mem_singleton] at hm
      rw [hm]
      exact zmkToLabel_ne kc (hr kc (by simp))
  by_cases h6 : t = "&mo"
  · subst h6; simp [stepBinding]
  by_cases h7 : t = "&to"
  · subst h7; simp [stepBinding]
  by_cases h8 : t = "&tog"
  · subst h8; simp [stepBinding]
  by_cases h9 : t = "&sk"
  · subst h9
    cases rest with
    | nil => simp [stepBinding]
    | cons kc r2 =>
      intro lab hm
      simp only [stepBinding, List.mem_singleton] at hm
      rw [hm]
      exact zmkToLabel_ne kc (hr kc (by simp))
  by_cases h10 : t = "&sl"
  · subst h10; simp [stepBinding]
  by_cases h11 : t = "&bt"
  · subst h11
    match rest with
    | [] => simp [stepBinding]
    | cmd :: r2 =>
      by_cases hsel : cmd = "BT_SEL"
      · subst hsel
        match r2 with
        | [] => simp [stepBinding]
        | n :: r3 =>
          intro lab hm
          simp only [stepBinding, List.mem_singleton] at hm
          rw [hm]
          exact str_append_ne "bt" n (by decide)
      · by_cases hclr : cmd = "BT_CLR"
        · subst hclr; simp [stepBinding]
        · simp [stepBinding, hsel, hclr]
  by_cases h12 : t = "&bootloader"
  · subst h12; simp [stepBinding]
  by_cases h13 : t = "&reset"
  · subst h13; simp [stepBinding]
  by_cases h14 : t = "&sys_reset"
  · subst h14; simp [stepBinding]
  by_cases h15 : t = "&out"
  · subst h15; simp [stepBinding]
  by_cases h16 : t = "&studio_unlock"
  · subst h16; simp [stepBinding]
  have hnm : t ∉ knownBindingToks := by
    simp [knownBindingToks, h1, h2, h3, h4, h5, h6, h7, h8, h9, h10, h11, h12, h13, h14,
      h15, h16]
  rw [stepBinding_fallback t rest hnm]
  by_cases hkp : strStarts t "&kp" = true
  · rw [if_pos hkp]
    by_cases hd : strDrop t 3 ≠ ""
    · rw [if_pos hd]
      intro lab hm
      simp only [List.mem_singleton] at hm
      rw [hm]
      exact zmkToLabel_ne _ hd
    · rw [if_neg hd]; simp
  · rw [if_neg hkp]
    by_cases hamp : strStarts t "&" = true
    · rw [if_pos hamp]
      cases hlk : ((rest.takeWhile (fun a => !strStarts a "&")).filter keycodeLike).getLast? with
      | some k =>
        intro lab hm
        simp only [hlk, List.mem_singleton] at hm
        rw [hm]
        have hkm := List.mem_of_mem_getLast? hlk
        have hkk := (List.mem_filter.mp hkm).2
        exact zmkToLabel_ne k (keycodeLike_ne hkk)
      | none =>
        simp only [hlk]
        by_cases hlen : (rest.takeWhile (fun a => !strStarts a "&")).length = 0
        · rw [if_pos hlen]
          by_cases hnm4 : strTake (toLowerStr (strDrop t 1)) 4 = ""
          · rw [if_pos hnm4]; simp
          · rw [if_neg hnm4]
            intro lab hm
            simp only [List.mem_singleton] at hm
            rw [hm]
            exact hnm4
        · rw [if_neg hlen]; simp
    · rw [if_neg hamp]; simp

/-- Labels out of the whole binding loop are non-empty when the tokens
are. -/
theorem parseBindingsTokens_ne :
    ∀ (toks : List String), (∀ x ∈ toks, x ≠ "") →
      ∀ lab ∈ parseBindingsTokens toks, lab ≠ "" := by
  have H : ∀ (n : Nat) (toks : List String), toks.length = n →
      (∀ x ∈ toks, x ≠ "") → ∀ lab ∈ parseBindingsTokens toks, lab ≠ "" := by
    intro n
    induction n using Nat.strong_induction_on with
    | _ n ih =>
      intro toks hlen hx lab hm
      cases toks with
      | nil => simp [parseBindingsTokens] at hm
      | cons t rest =>
        rw [parseBindingsTokens] at hm
        rcases List.mem_append.mp hm with hm | hm
        · exact stepBinding_labels_ne t rest (fun x hxr => hx x (by simp [hxr])) lab hm
        · refine ih (rest.drop (stepBinding t rest).2).length ?_ _ rfl ?_ lab hm
          · rw [← hlen]
            simp only [List.length_drop, List.length_cons]
            omega
          · intro x hxd
            exact hx x (by simp [List.drop_subset _ _ hxd])
  exact fun toks => H toks.length toks rfl

/-- Tokens produced by the whitespace split are non-empty. -/
theorem parseBindings_tokens_ne (s : List Char) :
    ∀ x ∈ (wordsL (trimStr s)).map String.mk, x ≠ "" := by
  intro x hx
  rcases List.mem_map.mp hx with ⟨w, hw, hmk⟩
  have hwne : ¬w.isEmpty = true := by
    have := (List.mem_filter.mp hw).2
    simpa using this
  rw [← hmk]
  apply mk_ne_empty
  intro hnil
  rw [hnil] at hwne
  exact hwne rfl

/-- The intended invariant, proved of the string-only (own-property lookup)
model: every element of every layer's `keys` array is a non-empty string —
the keycode table values, the lowercase fallback on non-empty keycodes, the
fixed behavior labels, and the guarded 4-character behavior-name fallback
never yield the empty string. This is the behaviour `zmkToLabel`'s JSDoc
(`@returns {string}`) promises; the theorem below exhibits where the
program itself escapes it through the prototype chain. -/
theorem zmk_labels_nonempty (content : String) :
    ∀ layer ∈ (parseZmkKeymap content).layers, ∀ k ∈ layer.keys, k ≠ "" := by
  intro layer hl k hk
  rw [parseZmkKeymap] at hl
  cases hb : findKeymapBlock content.data with
  | none => rw [hb] at hl; simp at hl
  | some kc =>
    rw [hb] at hl
    simp only [extractLayers] at hl
    rcases List.mem_filterMap.mp hl with ⟨m, _, hmap⟩
    rcases Option.map_eq_some'.mp hmap with ⟨nm, _, hlayer⟩
    rw [← hlayer] at hk
    simp only [parseBindings] at hk
    exact parseBindingsTokens_ne _ (parseBindings_tokens_ne m.2) k hk

/-- The own-property invariant at a concrete keymap with a table hit, a
fallback lowering, a fixed label and a custom behavior. -/
theorem zmk_labels_nonempty_witness :
    (parseZmkKeymap "keymap \x7b base \x7b bindings = <&kp A &mo 1 &weird XY &trans>; \x7d; \x7d;").layers =
      [⟨"base", ["a", "mo", "xy", "_"]⟩] ∧
    ("a" : String) ≠ "" := by
  have hp : (parseZmkKeymap "keymap \x7b base \x7b bindings = <&kp A &mo 1 &weird XY &trans>; \x7d; \x7d;").layers =
      [⟨"base", ["a", "mo", "xy", "_"]⟩] := by
    with_unfolding_all decide
  refine ⟨hp, ?_⟩
  exact zmk_labels_nonempty _ ⟨"base", ["a", "mo", "xy", "_"]⟩ (by rw [hp]; simp) "a" (by simp)

/-- On every keycode whose two table reads miss the `Object.prototype`
names, the faithful lookup and the string-only lookup agree. -/
theorem zmkToLabelJs_agrees (k : String)
    (h1 : k ∉ objectProtoProps) (h2 : toUpperStr k ∉ objectProtoProps) :
    zmkToLabelJs k = .str (zmkToLabel k) := by
  rw [zmkToLabelJs, zmkToLabel, zmkTableRead]
  cases hl : ZMK_TO_LABEL.lookup k with
  | some v =>
    have hv := lookup_val_ne zmk_table_vals_ne hl
    simp [jsTruthy, hv]
  | none =>
    rw [if_neg h1, zmkToLabelJsUpper, zmkTableRead]
    cases hl2 : ZMK_TO_LABEL.lookup (toUpperStr k) with
    | some v =>
      have hv := lookup_val_ne zmk_table_vals_ne hl2
      simp [jsTruthy, hv]
    | none =>
      rw [if_neg h2]

/-- C10: the non-empty-string invariant fails on the program. A property
read `ZMK_TO_LABEL[keycode]` consults the prototype chain, so for the
binding `&kp toString` the truthy inherited `Object.prototype.toString` —
a function, not a string — is pushed as the layer's key: the
prototype-chain-faithful model yields `inherited "toString"`, which is no
`str` value at all, where the claim demands a non-empty string. -/
theorem zmk_label_proto_leak :
    (parseZmkKeymapJs "keymap \x7b a \x7b bindings = <&kp toString>; \x7d; \x7d;").layers =
      [⟨"a", [JsPropVal.inherited "toString"]⟩] ∧
    (∀ s : String, JsPropVal.inherited "toString" ≠ JsPropVal.str s) ∧
    parseBindingsJsTokens ["&kp", "toString"] = [JsPropVal.inherited "toString"] := by
  refine ⟨?_, ?_, ?_⟩
  · with_unfolding_all decide
  · intro s h
    exact JsPropVal.noConfusion h
  · with_unfolding_all decide

/-- C5 witness: a two-argument custom hold-tap and the zero-argument
fallback at concrete inputs. -/
theorem zmk_custom_behavior_witness :
    parseBindingsTokens ["&gqt", "LS(TAB)", "TAB", "&kp", "Q"] = ["tab", "q"] ∧
    parseBindingsTokens ["&mymacro"] = ["myma"] := by
  constructor
  · have h := (zmk_custom_behavior "&gqt" ["LS(TAB)", "TAB"] ["&kp", "Q"] "TAB"
      (by with_unfolding_all decide) (by with_unfolding_all decide)
      (by with_unfolding_all decide)).1 (by with_unfolding_all decide)
    have h2 : parseBindingsTokens ["&kp", "Q"] = ["q"] := by
      with_unfolding_all decide
    have h3 : zmkToLabel "TAB" = "tab" := by with_unfolding_all decide
    simpa [h2, h3] using h
  · have h := (zmk_custom_behavior "&mymacro" [] [] "X"
      (by with_unfolding_all decide) (by simp) (by simp)).2.1
    have h4 : strTake (toLowerStr (strDrop "&mymacro" 1)) 4 = "myma" := by
      with_unfolding_all decide
    simpa [parseBindingsTokens, h4] using h

end Ktute
